import Mathlib

/-!
Shallow embedding of `src/main.cpp`: an integer arithmetic-expression
evaluator (lexer, recursive-descent parser, tree interpreter).

C++ exceptions are modelled by `Except Err`; the error taxonomy follows the
distinct `throw` sites of the source.  Machine `int` is modelled by
unbounded `Int` (native-width overflow is out of scope); C++ truncating
integer division is `Int.tdiv`.
-/

/-- `enum class TokenType` of `src/main.cpp`. -/
inductive TokenType where
  | INTEGER
  | PLUSOPERATOR
  | MINUSOPERATOR
  | STAROPERATOR
  | SLASHOPERATOR
  | LPARENTHESIS
  | RPARENTHESIS
deriving DecidableEq, Repr

/-- `class Token`: a kind and the literal text. -/
structure Token where
  type : TokenType
  value : String
deriving DecidableEq, Repr

def Token.getType (t : Token) : TokenType := t.type

def Token.getValue (t : Token) : String := t.value

/-- `Token::isType`. -/
def Token.isType (t : Token) (ty : TokenType) : Bool := t.type = ty

/-- `Token::isOperator`. -/
def Token.isOperator (t : Token) : Bool :=
  t.type = TokenType.PLUSOPERATOR || t.type = TokenType.MINUSOPERATOR ||
  t.type = TokenType.STAROPERATOR || t.type = TokenType.SLASHOPERATOR

/-- The typed failure values corresponding to the `throw` sites of the
source: `LexError{unexpectedChar}`, the three `ParseError`s, and
`ArithmeticError{DivisionByZero}`. -/
inductive Err where
  | lexError (unexpectedChar : Char)
  | unexpectedEnd
  | expectedCloseParen
  | invalidPrimary
  | divisionByZero
deriving DecidableEq, Repr

/-- C `isspace` on the default locale: the six standard whitespace
characters. -/
def isspace (c : Char) : Bool :=
  c = ' ' || c = '\t' || c = '\n' || c = '\x0b' || c = '\x0c' || c = '\r'

/-- C `isdigit`: ASCII decimal digits. -/
def isdigit (c : Char) : Bool := '0' ≤ c && c ≤ '9'

theorem length_dropWhile_le (p : Char → Bool) (l : List Char) :
    (l.dropWhile p).length ≤ l.length := by
  induction l with
  | nil => simp [List.dropWhile]
  | cons c cs ih =>
    simp only [List.dropWhile]
    cases p c <;> simp
    omega

/-- `Lexer::tokenize`, on the character list of the input.  Whitespace is
skipped; a maximal digit run becomes one `INTEGER` token; each operator or
parenthesis character maps to a single-character token; any other
character raises the lexical error. -/
def tokenizeChars : List Char → Except Err (List Token)
  | [] => .ok []
  | c :: cs =>
    if isspace c then tokenizeChars cs
    else if isdigit c then
      match tokenizeChars (cs.dropWhile isdigit) with
      | .error e => .error e
      | .ok rest => .ok (⟨.INTEGER, String.mk (c :: cs.takeWhile isdigit)⟩ :: rest)
    else if c = '+' then
      match tokenizeChars cs with
      | .error e => .error e
      | .ok rest => .ok (⟨.PLUSOPERATOR, "+"⟩ :: rest)
    else if c = '-' then
      match tokenizeChars cs with
      | .error e => .error e
      | .ok rest => .ok (⟨.MINUSOPERATOR, "-"⟩ :: rest)
    else if c = '*' then
      match tokenizeChars cs with
      | .error e => .error e
      | .ok rest => .ok (⟨.STAROPERATOR, "*"⟩ :: rest)
    else if c = '/' then
      match tokenizeChars cs with
      | .error e => .error e
      | .ok rest => .ok (⟨.SLASHOPERATOR, "/"⟩ :: rest)
    else if c = '(' then
      match tokenizeChars cs with
      | .error e => .error e
      | .ok rest => .ok (⟨.LPARENTHESIS, "("⟩ :: rest)
    else if c = ')' then
      match tokenizeChars cs with
      | .error e => .error e
      | .ok rest => .ok (⟨.RPARENTHESIS, ")"⟩ :: rest)
    else .error (.lexError c)
termination_by l => l.length
decreasing_by
  all_goals simp only [List.length_cons]
  all_goals try omega
  all_goals have h := length_dropWhile_le isdigit cs
  all_goals omega

deriving instance DecidableEq for Except

/-- `Lexer::tokenize` on a `String`. -/
def tokenize (s : String) : Except Err (List Token) := tokenizeChars s.data

/-- The expression-tree variants of `src/main.cpp`: `LiteralExpression` and
the four `BinaryOp` subclasses (`PlusBinaryOp`, `MinusBinaryOp`,
`StarBinaryOp`, `DivBinaryOp`), each holding `left` and `right` children. -/
inductive Expr where
  | lit (value : Int)
  | plus (left right : Expr)
  | minus (left right : Expr)
  | star (left right : Expr)
  | div (left right : Expr)
deriving DecidableEq, Repr

/-- `std::stoi` as applied to the digit-run text of an `INTEGER` token (the
lexer guarantees the text is a nonempty ASCII-digit string; native-width
overflow is out of scope, so the value is unbounded). -/
def stoi (s : String) : Int :=
  ((s.data.foldl (fun acc c => acc * 10 + (c.toNat - 48)) 0 : Nat) : Int)

/-- `Expression::interpret`, i.e. the virtual `interpret` of each node
class.  `DivBinaryOp::interpret` evaluates the right operand first, fails
with the division-by-zero error if it is zero, and otherwise performs
C++ truncation-toward-zero division (`Int.tdiv`). -/
def interpret : Expr → Except Err Int
  | .lit v => .ok v
  | .plus l r =>
    match interpret l with
    | .error e => .error e
    | .ok a =>
      match interpret r with
      | .error e => .error e
      | .ok b => .ok (a + b)
  | .minus l r =>
    match interpret l with
    | .error e => .error e
    | .ok a =>
      match interpret r with
      | .error e => .error e
      | .ok b => .ok (a - b)
  | .star l r =>
    match interpret l with
    | .error e => .error e
    | .ok a =>
      match interpret r with
      | .error e => .error e
      | .ok b => .ok (a * b)
  | .div l r =>
    match interpret r with
    | .error e => .error e
    | .ok d =>
      if d = 0 then .error .divisionByZero
      else
        match interpret l with
        | .error e => .error e
        | .ok n => .ok (Int.tdiv n d)

/-- Result type of a parsing step: an expression together with the
remaining (not yet consumed) tokens.  The C++ parser walks an index over a
fixed token vector; the remaining-suffix view carries the bound needed for
termination. -/
abbrev ParseOut (toks : List Token) : Type :=
  Except Err (Expr × {rest : List Token // rest.length ≤ toks.length})

mutual

/-- `Parser::parseExpression`: just delegates to `parseTerm`. -/
def parseExpression (toks : List Token) : ParseOut toks :=
  parseTerm toks
termination_by (toks.length, 5)
decreasing_by
  all_goals simp only [List.length_cons, Prod.lex_def, true_and]
  all_goals omega

/-- `Parser::parseTerm`: parse one factor, then fold the `+`/`-` loop. -/
def parseTerm (toks : List Token) : ParseOut toks :=
  match parseFactor toks with
  | .error e => .error e
  | .ok (left, ⟨rest, hrest⟩) =>
    match parseTermLoop left rest with
    | .error e => .error e
    | .ok (e, ⟨rest2, hrest2⟩) => .ok (e, ⟨rest2, by omega⟩)
termination_by (toks.length, 4)
decreasing_by
  all_goals simp only [List.length_cons, Prod.lex_def, true_and]
  all_goals omega

/-- The `while (true)` loop of `Parser::parseTerm`: if the next token is
`+` or `-`, consume it and fold with the next factor; otherwise rewind
(leave the token unconsumed) and stop. -/
def parseTermLoop (left : Expr) (toks : List Token) : ParseOut toks :=
  match toks with
  | [] => .ok (left, ⟨[], by simp⟩)
  | t :: rest =>
    if t.isType .PLUSOPERATOR then
      match parseFactor rest with
      | .error e => .error e
      | .ok (right, ⟨rest2, h2⟩) =>
        match parseTermLoop (.plus left right) rest2 with
        | .error e => .error e
        | .ok (e, ⟨rest3, h3⟩) =>
          .ok (e, ⟨rest3, by simp only [List.length_cons]; omega⟩)
    else if t.isType .MINUSOPERATOR then
      match parseFactor rest with
      | .error e => .error e
      | .ok (right, ⟨rest2, h2⟩) =>
        match parseTermLoop (.minus left right) rest2 with
        | .error e => .error e
        | .ok (e, ⟨rest3, h3⟩) =>
          .ok (e, ⟨rest3, by simp only [List.length_cons]; omega⟩)
    else .ok (left, ⟨t :: rest, by simp⟩)
termination_by (toks.length, 3)
decreasing_by
  all_goals simp only [List.length_cons, Prod.lex_def, true_and]
  all_goals omega

/-- `Parser::parseFactor`: parse one primary, then fold the `*`/`/` loop. -/
def parseFactor (toks : List Token) : ParseOut toks :=
  match parsePrimary toks with
  | .error e => .error e
  | .ok (left, ⟨rest, hrest⟩) =>
    match parseFactorLoop left rest with
    | .error e => .error e
    | .ok (e, ⟨rest2, hrest2⟩) => .ok (e, ⟨rest2, by omega⟩)
termination_by (toks.length, 2)
decreasing_by
  all_goals simp only [List.length_cons, Prod.lex_def, true_and]
  all_goals omega

/-- The `while (true)` loop of `Parser::parseFactor`: if the next token is
`*` or `/`, consume it and fold with the next primary; otherwise rewind
and stop. -/
def parseFactorLoop (left : Expr) (toks : List Token) : ParseOut toks :=
  match toks with
  | [] => .ok (left, ⟨[], by simp⟩)
  | t :: rest =>
    if t.isType .STAROPERATOR then
      match parsePrimary rest with
      | .error e => .error e
      | .ok (right, ⟨rest2, h2⟩) =>
        match parseFactorLoop (.star left right) rest2 with
        | .error e => .error e
        | .ok (e, ⟨rest3, h3⟩) =>
          .ok (e, ⟨rest3, by simp only [List.length_cons]; omega⟩)
    else if t.isType .SLASHOPERATOR then
      match parsePrimary rest with
      | .error e => .error e
      | .ok (right, ⟨rest2, h2⟩) =>
        match parseFactorLoop (.div left right) rest2 with
        | .error e => .error e
        | .ok (e, ⟨rest3, h3⟩) =>
          .ok (e, ⟨rest3, by simp only [List.length_cons]; omega⟩)
    else .ok (left, ⟨t :: rest, by simp⟩)
termination_by (toks.length, 1)
decreasing_by
  all_goals simp only [List.length_cons, Prod.lex_def, true_and]
  all_goals omega

/-- `Parser::parsePrimary`: consume one token.  No token raises the
unexpected-end error; an `INTEGER` token becomes a literal via `stoi`; an
opening parenthesis parses a full sub-expression and requires the next
token to be a closing parenthesis (otherwise the expected-close-paren
error); any other token raises the invalid-primary error. -/
def parsePrimary (toks : List Token) : ParseOut toks :=
  match toks with
  | [] => .error .unexpectedEnd
  | t :: rest =>
    if t.isType .INTEGER then
      .ok (.lit (stoi t.value), ⟨rest, by simp⟩)
    else if t.isType .LPARENTHESIS then
      match parseExpression rest with
      | .error e => .error e
      | .ok (e, ⟨rest2, h2⟩) =>
        match rest2, h2 with
        | [], _ => .error .expectedCloseParen
        | t2 :: rest3, h2 =>
          if t2.isType .RPARENTHESIS then
            .ok (e, ⟨rest3, by simp only [List.length_cons] at h2 ⊢; omega⟩)
          else .error .expectedCloseParen
    else .error .invalidPrimary
termination_by (toks.length, 0)
decreasing_by
  all_goals simp only [List.length_cons, Prod.lex_def, true_and]
  all_goals omega

end

/-- `Parser::parse` as used by `main`: the parsed expression of
`parseExpression`, discarding the final index (trailing tokens are not
checked). -/
def parse (toks : List Token) : Except Err Expr :=
  match parseExpression toks with
  | .error e => .error e
  | .ok (e, _) => .ok e

/-- `parseExpression` with the remaining-token list exposed (the suffix of
the token vector from the parser's final index). -/
def parseExpressionRest (toks : List Token) : Except Err (Expr × List Token) :=
  match parseExpression toks with
  | .error e => .error e
  | .ok (e, rest) => .ok (e, rest.val)

/-- The whole pipeline of `main`'s try-block: tokenize, parse, interpret. -/
def evaluate (s : String) : Except Err Int :=
  match tokenize s with
  | .error e => .error e
  | .ok toks =>
    match parse toks with
    | .error e => .error e
    | .ok e => interpret e

theorem isspace_false_of_isdigit {c : Char} (h : isdigit c = true) :
    isspace c = false := by
  cases hs : isspace c
  · rfl
  · exfalso
    simp only [isspace, Bool.or_eq_true, decide_eq_true_eq] at hs
    rcases hs with ((((h1 | h1) | h1) | h1) | h1) | h1 <;> subst h1 <;>
      revert h <;> decide

theorem isdigit_false_of_isspace {c : Char} (h : isspace c = true) :
    isdigit c = false := by
  cases hd : isdigit c
  · rfl
  · exact absurd h (by simp [isspace_false_of_isdigit hd])

theorem tokenizeChars_nil : tokenizeChars [] = .ok [] := by
  rw [tokenizeChars.eq_def]

/-- One lexer step on a whitespace character: skip it. -/
theorem tokenizeChars_cons_space {c : Char} (hc : isspace c = true)
    (cs : List Char) : tokenizeChars (c :: cs) = tokenizeChars cs := by
  rw [tokenizeChars.eq_def]
  simp [hc]

/-- One lexer step on a digit: take the maximal digit run as one
`INTEGER` token. -/
theorem tokenizeChars_cons_digit {c : Char} (hc : isdigit c = true)
    (cs : List Char) :
    tokenizeChars (c :: cs) =
      match tokenizeChars (cs.dropWhile isdigit) with
      | .error e => .error e
      | .ok rest => .ok (⟨.INTEGER, String.mk (c :: cs.takeWhile isdigit)⟩ :: rest) := by
  rw [tokenizeChars.eq_def]
  simp [hc, isspace_false_of_isdigit hc]

/-- The token a single operator or parenthesis character lexes to. -/
def symbolToken (c : Char) : Option Token :=
  if c = '+' then some ⟨.PLUSOPERATOR, "+"⟩
  else if c = '-' then some ⟨.MINUSOPERATOR, "-"⟩
  else if c = '*' then some ⟨.STAROPERATOR, "*"⟩
  else if c = '/' then some ⟨.SLASHOPERATOR, "/"⟩
  else if c = '(' then some ⟨.LPARENTHESIS, "("⟩
  else if c = ')' then some ⟨.RPARENTHESIS, ")"⟩
  else none

/-- One lexer step on an operator or parenthesis character. -/
theorem tokenizeChars_cons_symbol {c : Char} {tok : Token}
    (hc : symbolToken c = some tok) (cs : List Char) :
    tokenizeChars (c :: cs) =
      match tokenizeChars cs with
      | .error e => .error e
      | .ok rest => .ok (tok :: rest) := by
  unfold symbolToken at hc
  split_ifs at hc with h1 h2 h3 h4 h5 h6
  all_goals injection hc with hc
  all_goals subst hc
  all_goals subst_vars
  all_goals rw [tokenizeChars.eq_def]
  all_goals simp [isspace, isdigit]

/-- Leading whitespace never changes the lexer's output. -/
theorem tokenizeChars_ws_append {l : List Char}
    (h : ∀ c ∈ l, isspace c = true) (rest : List Char) :
    tokenizeChars (l ++ rest) = tokenizeChars rest := by
  induction l with
  | nil => rfl
  | cons c cs ih =>
    rw [List.cons_append, tokenizeChars_cons_space (h c (by simp))]
    exact ih (fun c' hc' => h c' (by simp [hc']))

/-- A nonempty digit run followed by a non-digit (or by nothing) lexes to
one `INTEGER` token holding exactly that run. -/
theorem tokenizeChars_digitrun_append {l rest : List Char} (hne : l ≠ [])
    (hd : ∀ c ∈ l, isdigit c = true)
    (hrest : ∀ d, rest.head? = some d → isdigit d = false) :
    tokenizeChars (l ++ rest) =
      match tokenizeChars rest with
      | .error e => .error e
      | .ok ts => .ok (⟨.INTEGER, String.mk l⟩ :: ts) := by
  match l, hne with
  | c :: cs, _ =>
    have hcs : ∀ c' ∈ cs, isdigit c' = true := fun c' hc' => hd c' (by simp [hc'])
    have htake : (cs ++ rest).takeWhile isdigit = cs := by
      rw [List.takeWhile_append, if_pos (by rw [List.takeWhile_eq_self_iff.2 hcs])]
      cases rest with
      | nil => simp
      | cons d ds => rw [List.takeWhile_cons, if_neg (by simp [hrest d rfl])]; simp
    have hdrop : (cs ++ rest).dropWhile isdigit = rest := by
      rw [List.dropWhile_append, if_pos (by simp [List.dropWhile_eq_nil_iff.2 hcs])]
      cases rest with
      | nil => rfl
      | cons d ds => rw [List.dropWhile_cons, if_neg (by simp [hrest d rfl])]
    rw [List.cons_append, tokenizeChars_cons_digit (hd c (by simp)), htake, hdrop]

/-- The characters accepted by some branch of the lexer: whitespace,
ASCII digits, the four operator symbols and the two parentheses. -/
def legalChar (c : Char) : Bool :=
  isspace c || isdigit c || (symbolToken c).isSome

theorem isdigit_false_of_symbolToken {c : Char} {tok : Token}
    (h : symbolToken c = some tok) : isdigit c = false := by
  unfold symbolToken at h
  split_ifs at h <;> subst_vars <;> rfl

/-- One lexer step on an illegal character: the lexical error naming it. -/
theorem tokenizeChars_cons_illegal {c : Char} (h : legalChar c = false)
    (cs : List Char) : tokenizeChars (c :: cs) = .error (.lexError c) := by
  simp only [legalChar, Bool.or_eq_false_iff] at h
  obtain ⟨⟨hsp, hdig⟩, hsym⟩ := h
  have hnone : symbolToken c = none := by
    cases hv : symbolToken c
    · rfl
    · rw [hv] at hsym; exact absurd hsym (by simp)
  have hp : c ≠ '+' := fun hEq => by subst hEq; simp [symbolToken] at hnone
  have hm : c ≠ '-' := fun hEq => by subst hEq; simp [symbolToken] at hnone
  have hst : c ≠ '*' := fun hEq => by subst hEq; simp [symbolToken] at hnone
  have hsl : c ≠ '/' := fun hEq => by subst hEq; simp [symbolToken] at hnone
  have hlp : c ≠ '(' := fun hEq => by subst hEq; simp [symbolToken] at hnone
  have hrp : c ≠ ')' := fun hEq => by subst hEq; simp [symbolToken] at hnone
  rw [tokenizeChars.eq_def]
  simp [hsp, hdig, hp, hm, hst, hsl, hlp, hrp]

/-- On an input of legal characters only, the lexer succeeds. -/
theorem tokenizeChars_ok_of_legal :
    ∀ (n : Nat) (l : List Char), l.length ≤ n → (∀ c ∈ l, legalChar c = true) →
      ∃ ts, tokenizeChars l = .ok ts := by
  intro n
  induction n with
  | zero =>
    intro l hl _
    rw [List.length_eq_zero.1 (Nat.le_zero.1 hl)]
    exact ⟨[], tokenizeChars_nil⟩
  | succ n ih =>
    intro l hl hleg
    match l with
    | [] => exact ⟨[], tokenizeChars_nil⟩
    | c :: cs =>
      have hc := hleg c (by simp)
      simp only [legalChar, Bool.or_eq_true] at hc
      rcases hc with (hsp | hdig) | hsym
      · rw [tokenizeChars_cons_space hsp]
        exact ih cs (by simp at hl; omega) (fun c' hc' => hleg c' (by simp [hc']))
      · rw [tokenizeChars_cons_digit hdig]
        obtain ⟨ts, hts⟩ := ih (cs.dropWhile isdigit)
          (by have := length_dropWhile_le isdigit cs; simp at hl; omega)
          (fun c' hc' => hleg c' (by simp [(List.dropWhile_sublist isdigit).subset hc']))
        rw [hts]
        exact ⟨_, rfl⟩
      · obtain ⟨tok, htok⟩ := Option.isSome_iff_exists.1 hsym
        rw [tokenizeChars_cons_symbol htok]
        obtain ⟨ts, hts⟩ := ih cs (by simp at hl; omega)
          (fun c' hc' => hleg c' (by simp [hc']))
        rw [hts]
        exact ⟨_, rfl⟩

theorem dropWhile_digit_append_illegal {c : Char} (hc : isdigit c = false)
    (gs rest : List Char) :
    (gs ++ c :: rest).dropWhile isdigit = gs.dropWhile isdigit ++ c :: rest := by
  rw [List.dropWhile_append]
  split
  · next hEmp =>
    rw [List.isEmpty_iff.1 hEmp, List.dropWhile_cons, if_neg (by simp [hc])]
    rfl
  · rfl

/-- The lexer fails with the lexical error naming exactly the first
illegal character, whatever follows it. -/
theorem tokenizeChars_error_at_first_illegal :
    ∀ (n : Nat) (good : List Char), good.length ≤ n →
      (∀ c ∈ good, legalChar c = true) →
      ∀ (c : Char), legalChar c = false → ∀ rest,
        tokenizeChars (good ++ c :: rest) = .error (.lexError c) := by
  intro n
  induction n with
  | zero =>
    intro good hl _ c hc rest
    rw [List.length_eq_zero.1 (Nat.le_zero.1 hl), List.nil_append]
    exact tokenizeChars_cons_illegal hc rest
  | succ n ih =>
    intro good hl hleg c hc rest
    match good with
    | [] => exact tokenizeChars_cons_illegal hc rest
    | g :: gs =>
      have hg := hleg g (by simp)
      simp only [legalChar, Bool.or_eq_true] at hg
      rcases hg with (hsp | hdig) | hsym
      · rw [List.cons_append, tokenizeChars_cons_space hsp]
        exact ih gs (by simp at hl; omega)
          (fun c' hc' => hleg c' (by simp [hc'])) c hc rest
      · rw [List.cons_append, tokenizeChars_cons_digit hdig]
        have hdig_c : isdigit c = false := by
          simp only [legalChar, Bool.or_eq_false_iff] at hc
          exact hc.1.2
        rw [dropWhile_digit_append_illegal hdig_c]
        rw [ih (gs.dropWhile isdigit)
          (by have := length_dropWhile_le isdigit gs; simp at hl; omega)
          (fun c' hc' => hleg c' (by simp [(List.dropWhile_sublist isdigit).subset hc']))
          c hc rest]
      · obtain ⟨tok, htok⟩ := Option.isSome_iff_exists.1 hsym
        rw [List.cons_append, tokenizeChars_cons_symbol htok]
        rw [ih gs (by simp at hl; omega)
          (fun c' hc' => hleg c' (by simp [hc'])) c hc rest]


/-- The decimal numeral of `n`, without leading zeros: the base-10 digits
of `n` (most significant first), and `['0']` for zero. -/
def strChars (n : Nat) : List Char :=
  if n = 0 then ['0'] else (Nat.digits 10 n).reverse.map Nat.digitChar

/-- `str(n)` of the round-trip property: the decimal numeral of `n` as a
string, without leading zeros. -/
def str (n : Nat) : String := String.mk (strChars n)

theorem digitChar_isdigit {d : Nat} (h : d < 10) :
    isdigit (Nat.digitChar d) = true := by
  interval_cases d <;> decide

theorem digitChar_toNat {d : Nat} (h : d < 10) :
    (Nat.digitChar d).toNat = d + 48 := by
  interval_cases d <;> decide

theorem strChars_ne_nil (n : Nat) : strChars n ≠ [] := by
  unfold strChars
  split
  · simp
  · next h => simp [Nat.digits_ne_nil_iff_ne_zero.2 h]

theorem strChars_digits (n : Nat) : ∀ c ∈ strChars n, isdigit c = true := by
  intro c hc
  unfold strChars at hc
  split at hc
  · simp at hc
    subst hc
    decide
  · simp only [List.mem_map, List.mem_reverse] at hc
    obtain ⟨d, hd, rfl⟩ := hc
    exact digitChar_isdigit (Nat.digits_lt_base (by norm_num) hd)

theorem foldl_digitChar :
    ∀ (ds : List Nat), (∀ d ∈ ds, d < 10) → ∀ (a : Nat),
      (ds.reverse.map Nat.digitChar).foldl (fun acc c => acc * 10 + (c.toNat - 48)) a
        = a * 10 ^ ds.length + Nat.ofDigits 10 ds := by
  intro ds
  induction ds with
  | nil => intro _ a; simp [Nat.ofDigits]
  | cons d ds ih =>
    intro hds a
    rw [List.reverse_cons, List.map_append, List.foldl_append,
      ih (fun d' hd' => hds d' (by simp [hd'])) a]
    simp only [List.map_cons, List.map_nil, List.foldl_cons, List.foldl_nil,
      Nat.ofDigits_cons, List.length_cons,
      digitChar_toNat (hds d (by simp)), Nat.add_sub_cancel]
    ring

theorem stoi_str (n : Nat) : stoi (str n) = (n : Int) := by
  unfold stoi str
  have hdata : (String.mk (strChars n)).data = strChars n := rfl
  rw [hdata]
  unfold strChars
  split
  · next h => subst h; rfl
  · next h =>
    rw [foldl_digitChar (Nat.digits 10 n)
      (fun d hd => Nat.digits_lt_base (by norm_num) hd) 0]
    simp [Nat.ofDigits_digits]

/-- Lexing a decimal numeral followed by a non-digit (or nothing) yields
one `INTEGER` token holding the numeral. -/
theorem tokenizeChars_str_append (n : Nat) (rest : List Char)
    (hrest : ∀ d, rest.head? = some d → isdigit d = false) :
    tokenizeChars (strChars n ++ rest) =
      match tokenizeChars rest with
      | .error e => .error e
      | .ok ts => .ok (⟨.INTEGER, str n⟩ :: ts) :=
  tokenizeChars_digitrun_append (strChars_ne_nil n) (strChars_digits n) hrest

theorem parse_single_int (v : String) :
    parse [⟨.INTEGER, v⟩] = .ok (.lit (stoi v)) := by
  simp [parse, parseExpression, parseTerm, parseTermLoop, parseFactor,
    parseFactorLoop, parsePrimary, Token.isType]

/-- Parsing `x + y * z` groups the multiplication under the addition. -/
theorem parse_int_add_int_mul_int (x y z : String) :
    parse [⟨.INTEGER, x⟩, ⟨.PLUSOPERATOR, "+"⟩, ⟨.INTEGER, y⟩,
           ⟨.STAROPERATOR, "*"⟩, ⟨.INTEGER, z⟩] =
      .ok (.plus (.lit (stoi x)) (.star (.lit (stoi y)) (.lit (stoi z)))) := by
  simp [parse, parseExpression, parseTerm, parseTermLoop, parseFactor,
    parseFactorLoop, parsePrimary, Token.isType]

/-- Parsing `x - y - z` folds to the left. -/
theorem parse_int_sub_int_sub_int (x y z : String) :
    parse [⟨.INTEGER, x⟩, ⟨.MINUSOPERATOR, "-"⟩, ⟨.INTEGER, y⟩,
           ⟨.MINUSOPERATOR, "-"⟩, ⟨.INTEGER, z⟩] =
      .ok (.minus (.minus (.lit (stoi x)) (.lit (stoi y))) (.lit (stoi z))) := by
  simp [parse, parseExpression, parseTerm, parseTermLoop, parseFactor,
    parseFactorLoop, parsePrimary, Token.isType]

/-- Parsing `x / y / z` folds to the left. -/
theorem parse_int_div_int_div_int (x y z : String) :
    parse [⟨.INTEGER, x⟩, ⟨.SLASHOPERATOR, "/"⟩, ⟨.INTEGER, y⟩,
           ⟨.SLASHOPERATOR, "/"⟩, ⟨.INTEGER, z⟩] =
      .ok (.div (.div (.lit (stoi x)) (.lit (stoi y))) (.lit (stoi z))) := by
  simp [parse, parseExpression, parseTerm, parseTermLoop, parseFactor,
    parseFactorLoop, parsePrimary, Token.isType]

/-- Lexing `str a <sym1> str b <sym2> str c` for operator symbols. -/
theorem tokenizeChars_three_numerals {c1 c2 : Char} {t1 t2 : Token}
    (h1 : symbolToken c1 = some t1) (h2 : symbolToken c2 = some t2)
    (a b c : Nat) :
    tokenizeChars (strChars a ++ c1 :: (strChars b ++ c2 :: strChars c)) =
      .ok [⟨.INTEGER, str a⟩, t1, ⟨.INTEGER, str b⟩, t2, ⟨.INTEGER, str c⟩] := by
  rw [tokenizeChars_str_append a _
    (by intro d hd; injection hd with hd; subst hd;
        exact isdigit_false_of_symbolToken h1)]
  rw [tokenizeChars_cons_symbol h1]
  rw [tokenizeChars_str_append b _
    (by intro d hd; injection hd with hd; subst hd;
        exact isdigit_false_of_symbolToken h2)]
  rw [tokenizeChars_cons_symbol h2]
  rw [show strChars c = strChars c ++ [] by simp]
  rw [tokenizeChars_str_append c [] (by intro d hd; injection hd)]
  rw [tokenizeChars_nil]

theorem parseFactorLoop_rest :
    ∀ (n : Nat) (toks : List Token), toks.length ≤ n → ∀ (left e : Expr) r,
      parseFactorLoop left toks = .ok (e, r) →
      r.val = [] ∨ ∃ t ts, r.val = t :: ts ∧
        t.isType .STAROPERATOR = false ∧ t.isType .SLASHOPERATOR = false := by
  intro n
  induction n with
  | zero =>
    intro toks hlen left e r h
    match toks, hlen, r, h with
    | [], _, r, h =>
      simp only [parseFactorLoop, Except.ok.injEq, Prod.mk.injEq] at h
      left
      rw [← h.2]
  | succ n ih =>
    intro toks hlen left e r h
    match toks, hlen, r, h with
    | [], _, r, h =>
      simp only [parseFactorLoop, Except.ok.injEq, Prod.mk.injEq] at h
      left
      rw [← h.2]
    | t :: rest, hlen, r, h =>
      simp only [parseFactorLoop] at h
      by_cases hstar : t.isType .STAROPERATOR
      · rw [if_pos hstar] at h
        split at h
        · exact absurd h (by simp)
        · next right rest2 h2 heq =>
          split at h
          · exact absurd h (by simp)
          · next e3 rest3 h3 heq2 =>
            simp only [Except.ok.injEq, Prod.mk.injEq] at h
            have := ih rest2 (by simp at hlen; omega) (.star left right) e3 ⟨rest3, h3⟩ heq2
            rw [← h.2]
            exact this
      · rw [if_neg hstar] at h
        by_cases hslash : t.isType .SLASHOPERATOR
        · rw [if_pos hslash] at h
          split at h
          · exact absurd h (by simp)
          · next right rest2 h2 heq =>
            split at h
            · exact absurd h (by simp)
            · next e3 rest3 h3 heq2 =>
              simp only [Except.ok.injEq, Prod.mk.injEq] at h
              have := ih rest2 (by simp at hlen; omega) (.div left right) e3 ⟨rest3, h3⟩ heq2
              rw [← h.2]
              exact this
        · rw [if_neg hslash] at h
          simp only [Except.ok.injEq, Prod.mk.injEq] at h
          right
          refine ⟨t, rest, ?_, by simpa using hstar, by simpa using hslash⟩
          rw [← h.2]

theorem parseFactor_rest (toks : List Token) (e : Expr) (r)
    (h : parseFactor toks = .ok (e, r)) :
    r.val = [] ∨ ∃ t ts, r.val = t :: ts ∧
      t.isType .STAROPERATOR = false ∧ t.isType .SLASHOPERATOR = false := by
  simp only [parseFactor] at h
  split at h
  · exact absurd h (by simp)
  · next left rest hrest heq =>
    split at h
    · exact absurd h (by simp)
    · next e2 rest2 hrest2 heq2 =>
      simp only [Except.ok.injEq, Prod.mk.injEq] at h
      have := parseFactorLoop_rest rest.length rest (le_refl _) left e2 ⟨rest2, hrest2⟩ heq2
      rw [← h.2]
      exact this

theorem parseTermLoop_rest :
    ∀ (n : Nat) (toks : List Token), toks.length ≤ n →
      (toks = [] ∨ ∃ t ts, toks = t :: ts ∧
        t.isType .STAROPERATOR = false ∧ t.isType .SLASHOPERATOR = false) →
      ∀ (left e : Expr) r, parseTermLoop left toks = .ok (e, r) →
      r.val = [] ∨ ∃ t ts, r.val = t :: ts ∧ t.isOperator = false := by
  intro n
  induction n with
  | zero =>
    intro toks hlen _ left e r h
    match toks, hlen, r, h with
    | [], _, r, h =>
      simp only [parseTermLoop, Except.ok.injEq, Prod.mk.injEq] at h
      left
      rw [← h.2]
  | succ n ih =>
    intro toks hlen hin left e r h
    match toks, hlen, hin, r, h with
    | [], _, _, r, h =>
      simp only [parseTermLoop, Except.ok.injEq, Prod.mk.injEq] at h
      left
      rw [← h.2]
    | t :: rest, hlen, hin, r, h =>
      simp only [parseTermLoop] at h
      by_cases hplus : t.isType .PLUSOPERATOR
      · rw [if_pos hplus] at h
        split at h
        · exact absurd h (by simp)
        · next right rest2 h2 heq =>
          split at h
          · exact absurd h (by simp)
          · next e3 rest3 h3 heq2 =>
            simp only [Except.ok.injEq, Prod.mk.injEq] at h
            have hfac := parseFactor_rest rest right ⟨rest2, h2⟩ heq
            have := ih rest2 (by simp at hlen; omega) hfac (.plus left right) e3 ⟨rest3, h3⟩ heq2
            rw [← h.2]
            exact this
      · rw [if_neg hplus] at h
        by_cases hminus : t.isType .MINUSOPERATOR
        · rw [if_pos hminus] at h
          split at h
          · exact absurd h (by simp)
          · next right rest2 h2 heq =>
            split at h
            · exact absurd h (by simp)
            · next e3 rest3 h3 heq2 =>
              simp only [Except.ok.injEq, Prod.mk.injEq] at h
              have hfac := parseFactor_rest rest right ⟨rest2, h2⟩ heq
              have := ih rest2 (by simp at hlen; omega) hfac (.minus left right) e3 ⟨rest3, h3⟩ heq2
              rw [← h.2]
              exact this
        · rw [if_neg hminus] at h
          simp only [Except.ok.injEq, Prod.mk.injEq] at h
          right
          rcases hin with hnil | ⟨t', ts', hcons, hstar, hslash⟩
          · exact absurd hnil (by simp)
          · injection hcons with h1 h2'
            subst h1
            subst h2'
            refine ⟨t, rest, by rw [← h.2], ?_⟩
            simp only [Token.isType, decide_eq_false_iff_not] at hplus hminus hstar hslash
            simp [Token.isOperator, hplus, hminus, hstar, hslash]

theorem parseTerm_rest (toks : List Token) (e : Expr) (r)
    (h : parseTerm toks = .ok (e, r)) :
    r.val = [] ∨ ∃ t ts, r.val = t :: ts ∧ t.isOperator = false := by
  simp only [parseTerm] at h
  split at h
  · exact absurd h (by simp)
  · next left rest hrest heq =>
    split at h
    · exact absurd h (by simp)
    · next e2 rest2 hrest2 heq2 =>
      simp only [Except.ok.injEq, Prod.mk.injEq] at h
      have hfac := parseFactor_rest toks left ⟨rest, hrest⟩ heq
      have := parseTermLoop_rest rest.length rest (le_refl _) hfac left e2 ⟨rest2, hrest2⟩ heq2
      rw [← h.2]
      exact this

/-- After a successful top-level parse, the unconsumed remainder (if any)
begins with a token that is not an operator: the parser only ever stops
the two fold loops at a non-continuation token or at end of input. -/
theorem parseExpressionRest_rest (toks : List Token) (e : Expr)
    (rest : List Token) (h : parseExpressionRest toks = .ok (e, rest)) :
    rest = [] ∨ ∃ t ts, rest = t :: ts ∧ t.isOperator = false := by
  unfold parseExpressionRest at h
  split at h
  · exact absurd h (by simp)
  · next e2 r2 heq =>
    simp only [Except.ok.injEq, Prod.mk.injEq] at h
    simp only [parseExpression] at heq
    have := parseTerm_rest toks e2 r2 heq
    rw [← h.2]
    exact this

theorem parsePrimary_nil : parsePrimary [] = .error .unexpectedEnd := by
  simp only [parsePrimary]

/-- Where a primary is required, a token that is neither an integer nor an
opening parenthesis is rejected as an invalid primary. -/
theorem parsePrimary_invalid {t : Token} (h1 : t.isType .INTEGER = false)
    (h2 : t.isType .LPARENTHESIS = false) (rest : List Token) :
    parsePrimary (t :: rest) = .error .invalidPrimary := by
  simp only [parsePrimary, h1, h2]
  simp

/-- After the sub-expression of a parenthesized group is parsed, anything
other than an immediately following closing parenthesis (including end of
input) is rejected with the expected-close-paren error. -/
theorem parsePrimary_unclosed {lp : Token} (hlp : lp.isType .LPARENTHESIS = true)
    (cs : List Token) (e : Expr) (r) (hpe : parseExpression cs = .ok (e, r))
    (hr : r.val = [] ∨ ∃ t2 ts, r.val = t2 :: ts ∧ t2.isType .RPARENTHESIS = false) :
    parsePrimary (lp :: cs) = .error .expectedCloseParen := by
  have hty : lp.type = .LPARENTHESIS := by simpa [Token.isType] using hlp
  have hint : lp.isType .INTEGER = false := by simp [Token.isType, hty]
  obtain ⟨rval, hprf⟩ := r
  simp only [parsePrimary, hint, hlp]
  rw [if_neg (by simp), if_pos (by simp), hpe]
  rcases hr with hnil | ⟨t2, ts, hcons, hrp⟩
  · simp only at hnil
    subst hnil
    rfl
  · simp only at hcons
    subst hcons
    simp [hrp]

/-- A rendering of a token sequence back to text: each token's literal
text followed by a (possibly empty) run of whitespace. -/
def render : List (Token × List Char) → List Char
  | [] => []
  | (t, ws) :: ps => t.value.data ++ (ws ++ render ps)

/-- A token whose literal text is what the lexer would produce for it:
a nonempty digit run for `INTEGER`, the single symbol otherwise. -/
def wfToken (t : Token) : Bool :=
  match t.type with
  | .INTEGER => !t.value.data.isEmpty && t.value.data.all isdigit
  | .PLUSOPERATOR => t.value = "+"
  | .MINUSOPERATOR => t.value = "-"
  | .STAROPERATOR => t.value = "*"
  | .SLASHOPERATOR => t.value = "/"
  | .LPARENTHESIS => t.value = "("
  | .RPARENTHESIS => t.value = ")"

def wsOnly (ws : List Char) : Bool := ws.all isspace

def wfParts (parts : List (Token × List Char)) : Bool :=
  parts.all fun p => wfToken p.1 && wsOnly p.2

/-- Between two adjacent `INTEGER` tokens the separating whitespace must
be nonempty (otherwise their digit runs would merge). -/
def sepOk : List (Token × List Char) → Bool
  | [] => true
  | [_] => true
  | (t1, ws1) :: (t2, ws2) :: ps =>
    (!(t1.isType .INTEGER && t2.isType .INTEGER) || !ws1.isEmpty) &&
      sepOk ((t2, ws2) :: ps)

theorem symbolToken_of_wfToken {t : Token} (hwf : wfToken t = true)
    (hty : t.isType .INTEGER = false) :
    ∃ c, t.value.data = [c] ∧ symbolToken c = some t ∧ isdigit c = false := by
  obtain ⟨ty, v⟩ := t
  simp only [Token.isType, decide_eq_false_iff_not] at hty
  cases ty <;> simp only [wfToken, decide_eq_true_eq] at hwf
  · exact absurd rfl hty
  · exact ⟨'+', by subst hwf; exact ⟨rfl, rfl, rfl⟩⟩
  · exact ⟨'-', by subst hwf; exact ⟨rfl, rfl, rfl⟩⟩
  · exact ⟨'*', by subst hwf; exact ⟨rfl, rfl, rfl⟩⟩
  · exact ⟨'/', by subst hwf; exact ⟨rfl, rfl, rfl⟩⟩
  · exact ⟨'(', by subst hwf; exact ⟨rfl, rfl, rfl⟩⟩
  · exact ⟨')', by subst hwf; exact ⟨rfl, rfl, rfl⟩⟩

/-- Lexing a rendering recovers exactly the rendered token sequence. -/
theorem tokenizeChars_render :
    ∀ (parts : List (Token × List Char)), wfParts parts = true →
      sepOk parts = true →
      tokenizeChars (render parts) = .ok (parts.map Prod.fst) := by
  intro parts
  induction parts with
  | nil => intro _ _; exact tokenizeChars_nil
  | cons p ps ih =>
    intro hwf hsep
    obtain ⟨t, ws⟩ := p
    have hwf' := hwf
    simp only [wfParts, List.all_cons, Bool.and_eq_true] at hwf'
    have hp : wfToken t = true ∧ wsOnly ws = true := hwf'.1
    have hps : wfParts ps = true := hwf'.2
    have hsep_ps : sepOk ps = true := by
      match ps with
      | [] => rfl
      | q :: qs =>
        obtain ⟨t2, ws2⟩ := q
        simp only [sepOk, Bool.and_eq_true] at hsep
        exact hsep.2
    by_cases hty : t.isType .INTEGER
    · -- integer token: a digit run
      have htyeq : t.type = .INTEGER := by simpa [Token.isType] using hty
      have hval : t.value.data ≠ [] ∧ ∀ c ∈ t.value.data, isdigit c = true := by
        have hv := hp.1
        rw [wfToken, htyeq] at hv
        simp only [Bool.and_eq_true, Bool.not_eq_true', List.all_eq_true] at hv
        refine ⟨fun hnil => ?_, fun c hc => hv.2 c hc⟩
        rw [hnil] at hv
        simp at hv
      have hhead : ∀ d, (ws ++ render ps).head? = some d → isdigit d = false := by
        intro d hd
        match ws, hd with
        | c :: ws', hd =>
          injection hd with hd
          subst hd
          exact isdigit_false_of_isspace (by
            have := hp.2
            simp only [wsOnly, List.all_cons, Bool.and_eq_true] at this
            exact this.1)
        | [], hd =>
          simp only [List.nil_append] at hd
          match ps, hd with
          | (t2, ws2) :: ps2, hd =>
            have ht2 : t2.isType .INTEGER = false := by
              simp only [sepOk, Bool.and_eq_true, Bool.or_eq_true,
                Bool.not_eq_true', Bool.and_eq_false_iff,
                List.isEmpty_iff] at hsep
              rcases hsep.1 with hf | hws
              · rcases hf with hf | hf
                · exact absurd hty (by simp [hf])
                · exact hf
              · exact absurd hws (by simp)
            have hwf2 : wfToken t2 = true := by
              have hps' := hps
              simp only [wfParts, List.all_cons, Bool.and_eq_true] at hps'
              exact hps'.1.1
            obtain ⟨c2, hc2, _, hdig2⟩ := symbolToken_of_wfToken hwf2 ht2
            rw [render] at hd
            rw [hc2] at hd
            injection hd with hd
            subst hd
            exact hdig2
      rw [render, tokenizeChars_digitrun_append hval.1 hval.2 hhead]
      rw [tokenizeChars_ws_append (by
        intro c hc
        have := hp.2
        simp only [wsOnly, List.all_eq_true] at this
        exact this c hc)]
      rw [ih hps hsep_ps]
      have : (⟨.INTEGER, String.mk t.value.data⟩ : Token) = t := by
        obtain ⟨ty, v⟩ := t
        simp only at htyeq
        subst htyeq
        rfl
      rw [this]
      rfl
    · -- symbol token
      obtain ⟨c, hc, hsym, _⟩ := symbolToken_of_wfToken hp.1 (by
        cases hv : t.isType .INTEGER
        · rfl
        · exact absurd hv hty)
      rw [render, hc, List.cons_append, List.nil_append,
        tokenizeChars_cons_symbol hsym]
      rw [tokenizeChars_ws_append (by
        intro c' hc'
        have := hp.2
        simp only [wsOnly, List.all_eq_true] at this
        exact this c' hc')]
      rw [ih hps hsep_ps]
      rfl

/-- `Int.tdiv` is truncation-toward-zero division: the magnitude is the
floor of the quotient of magnitudes, and the sign is the product of the
operand signs. -/
theorem tdiv_trunc (n d : Int) :
    Int.tdiv n d = n.sign * d.sign * ((n.natAbs / d.natAbs : Nat) : Int) := by
  rcases n with m | m <;> rcases d with k | k
  · rcases m with _ | m <;> rcases k with _ | k <;>
      simp [Int.tdiv, Int.sign, Int.natAbs, Int.ofNat_succ]
  · rcases m with _ | m <;>
      simp [Int.tdiv, Int.sign, Int.natAbs, Int.ofNat_succ]
  · rcases k with _ | k <;>
      simp [Int.tdiv, Int.sign, Int.natAbs, Int.ofNat_succ]
  · simp [Int.tdiv, Int.sign, Int.natAbs, Int.ofNat_succ]

theorem data_mk (l : List Char) : (String.mk l).data = l := rfl

theorem parse_nil : parse [] = .error .unexpectedEnd := by
  simp [parse, parseExpression, parseTerm, parseFactor, parsePrimary]

theorem str_sandwich_data (a b c : Nat) (s1 s2 : String) (c1 c2 : Char)
    (h1 : s1.data = [c1]) (h2 : s2.data = [c2]) :
    (str a ++ s1 ++ str b ++ s2 ++ str c).data =
      strChars a ++ c1 :: (strChars b ++ c2 :: strChars c) := by
  simp [String.data_append, str, h1, h2, data_mk]

/-- C1, counterexample: the claim "for every input whose token sequence is
accepted by evaluate with an integer result, the parser has consumed every
token" is false.  On "1 2" the lexer produces two INTEGER tokens, the
parser returns the literal 1 leaving the second token unconsumed, and
evaluate still returns the result 1. -/
theorem claim1_counterexample :
    tokenize "1 2" = .ok [⟨.INTEGER, "1"⟩, ⟨.INTEGER, "2"⟩] ∧
    parseExpressionRest [⟨.INTEGER, "1"⟩, ⟨.INTEGER, "2"⟩] =
      .ok (.lit 1, [⟨.INTEGER, "2"⟩]) ∧
    evaluate "1 2" = .ok 1 := by
  refine ⟨?_, ?_, ?_⟩ <;>
    simp [evaluate, tokenize, tokenizeChars, isspace, isdigit, parse,
      parseExpressionRest, parseExpression, parseTerm, parseTermLoop,
      parseFactor, parseFactorLoop, parsePrimary, Token.isType, stoi,
      interpret]

/-- C1, amended: each parser step consumes tokens from the front only, but
a successful parse need not consume every token: the parser stops at end
of input or at the first token that cannot continue the current precedence
level (necessarily a non-operator token), leaving any trailing tokens
unconsumed, and evaluate still returns a result (e.g. on "1 2"). -/
theorem claim1_amended :
    (∀ (toks : List Token) (e : Expr) (rest : List Token),
      parseExpressionRest toks = .ok (e, rest) →
      rest = [] ∨ ∃ t ts, rest = t :: ts ∧ t.isOperator = false) ∧
    evaluate "1 2" = .ok 1 := by
  constructor
  · exact fun toks e rest h => parseExpressionRest_rest toks e rest h
  · simp [evaluate, tokenize, tokenizeChars, isspace, isdigit, parse,
      parseExpression, parseTerm, parseTermLoop, parseFactor,
      parseFactorLoop, parsePrimary, Token.isType, stoi, interpret]

/-- C1, witness for the amended claim at a concrete input. -/
theorem claim1_witness :
    ([⟨.INTEGER, "2"⟩] : List Token) = [] ∨
      ∃ t ts, ([⟨.INTEGER, "2"⟩] : List Token) = t :: ts ∧
        t.isOperator = false :=
  claim1_amended.1 [⟨.INTEGER, "1"⟩, ⟨.INTEGER, "2"⟩] (.lit 1) [⟨.INTEGER, "2"⟩]
    (by simp [parseExpressionRest, parseExpression, parseTerm, parseTermLoop,
      parseFactor, parseFactorLoop, parsePrimary, Token.isType, stoi])

/-- C2: multiplicative operators bind tighter than additive ones:
evaluate "1+2*3" = 7 and evaluate "(1+2)*3" = 9, and for all a, b, c the
expression `a+b*c` lexes to the five expected tokens, parses to
`a + (b * c)`, and evaluates to that value. -/
theorem claim2 :
    evaluate "1+2*3" = .ok 7 ∧ evaluate "(1+2)*3" = .ok 9 ∧
    ∀ a b c : Nat,
      tokenize (str a ++ "+" ++ str b ++ "*" ++ str c) =
        .ok [⟨.INTEGER, str a⟩, ⟨.PLUSOPERATOR, "+"⟩, ⟨.INTEGER, str b⟩,
             ⟨.STAROPERATOR, "*"⟩, ⟨.INTEGER, str c⟩] ∧
      parse [⟨.INTEGER, str a⟩, ⟨.PLUSOPERATOR, "+"⟩, ⟨.INTEGER, str b⟩,
             ⟨.STAROPERATOR, "*"⟩, ⟨.INTEGER, str c⟩] =
        .ok (.plus (.lit a) (.star (.lit b) (.lit c))) ∧
      evaluate (str a ++ "+" ++ str b ++ "*" ++ str c) =
        .ok ((a : Int) + (b : Int) * (c : Int)) := by
  refine ⟨?_, ?_, ?_⟩
  · simp [evaluate, tokenize, tokenizeChars, isspace, isdigit, parse,
      parseExpression, parseTerm, parseTermLoop, parseFactor,
      parseFactorLoop, parsePrimary, Token.isType, stoi, interpret]
  · simp [evaluate, tokenize, tokenizeChars, isspace, isdigit, parse,
      parseExpression, parseTerm, parseTermLoop, parseFactor,
      parseFactorLoop, parsePrimary, Token.isType, stoi, interpret]
  · intro a b c
    have htok : tokenize (str a ++ "+" ++ str b ++ "*" ++ str c) =
        .ok [⟨.INTEGER, str a⟩, ⟨.PLUSOPERATOR, "+"⟩, ⟨.INTEGER, str b⟩,
             ⟨.STAROPERATOR, "*"⟩, ⟨.INTEGER, str c⟩] := by
      unfold tokenize
      rw [str_sandwich_data a b c "+" "*" '+' '*' rfl rfl]
      exact @tokenizeChars_three_numerals '+' '*' ⟨.PLUSOPERATOR, "+"⟩
        ⟨.STAROPERATOR, "*"⟩ (by decide) (by decide) a b c
    have hparse : parse [⟨.INTEGER, str a⟩, ⟨.PLUSOPERATOR, "+"⟩,
        ⟨.INTEGER, str b⟩, ⟨.STAROPERATOR, "*"⟩, ⟨.INTEGER, str c⟩] =
        .ok (.plus (.lit a) (.star (.lit b) (.lit c))) := by
      rw [parse_int_add_int_mul_int, stoi_str, stoi_str, stoi_str]
    refine ⟨htok, hparse, ?_⟩
    simp [evaluate, htok, hparse, interpret]

/-- C3: chains of same-precedence operators fold left-associatively:
evaluate "10-2-3" = 5 and evaluate "100/10/2" = 5, and for all a, b, c the
expression `a-b-c` parses as `(a-b)-c` and evaluates accordingly, while
`a/b/c` parses as `(a/b)/c` and evaluates exactly as that left-nested
division tree does. -/
theorem claim3 :
    evaluate "10-2-3" = .ok 5 ∧ evaluate "100/10/2" = .ok 5 ∧
    ∀ a b c : Nat,
      (parse [⟨.INTEGER, str a⟩, ⟨.MINUSOPERATOR, "-"⟩, ⟨.INTEGER, str b⟩,
              ⟨.MINUSOPERATOR, "-"⟩, ⟨.INTEGER, str c⟩] =
         .ok (.minus (.minus (.lit a) (.lit b)) (.lit c)) ∧
       evaluate (str a ++ "-" ++ str b ++ "-" ++ str c) =
         .ok ((a : Int) - (b : Int) - (c : Int))) ∧
      (parse [⟨.INTEGER, str a⟩, ⟨.SLASHOPERATOR, "/"⟩, ⟨.INTEGER, str b⟩,
              ⟨.SLASHOPERATOR, "/"⟩, ⟨.INTEGER, str c⟩] =
         .ok (.div (.div (.lit a) (.lit b)) (.lit c)) ∧
       evaluate (str a ++ "/" ++ str b ++ "/" ++ str c) =
         interpret (.div (.div (.lit a) (.lit b)) (.lit c))) := by
  refine ⟨?_, ?_, ?_⟩
  · simp [evaluate, tokenize, tokenizeChars, isspace, isdigit, parse,
      parseExpression, parseTerm, parseTermLoop, parseFactor,
      parseFactorLoop, parsePrimary, Token.isType, stoi, interpret]
  · simp [evaluate, tokenize, tokenizeChars, isspace, isdigit, parse,
      parseExpression, parseTerm, parseTermLoop, parseFactor,
      parseFactorLoop, parsePrimary, Token.isType, stoi, interpret, Int.tdiv]
  · intro a b c
    have htok1 : tokenize (str a ++ "-" ++ str b ++ "-" ++ str c) =
        .ok [⟨.INTEGER, str a⟩, ⟨.MINUSOPERATOR, "-"⟩, ⟨.INTEGER, str b⟩,
             ⟨.MINUSOPERATOR, "-"⟩, ⟨.INTEGER, str c⟩] := by
      unfold tokenize
      rw [str_sandwich_data a b c "-" "-" '-' '-' rfl rfl]
      exact @tokenizeChars_three_numerals '-' '-' ⟨.MINUSOPERATOR, "-"⟩
        ⟨.MINUSOPERATOR, "-"⟩ (by decide) (by decide) a b c
    have hparse1 : parse [⟨.INTEGER, str a⟩, ⟨.MINUSOPERATOR, "-"⟩,
        ⟨.INTEGER, str b⟩, ⟨.MINUSOPERATOR, "-"⟩, ⟨.INTEGER, str c⟩] =
        .ok (.minus (.minus (.lit a) (.lit b)) (.lit c)) := by
      rw [parse_int_sub_int_sub_int, stoi_str, stoi_str, stoi_str]
    have htok2 : tokenize (str a ++ "/" ++ str b ++ "/" ++ str c) =
        .ok [⟨.INTEGER, str a⟩, ⟨.SLASHOPERATOR, "/"⟩, ⟨.INTEGER, str b⟩,
             ⟨.SLASHOPERATOR, "/"⟩, ⟨.INTEGER, str c⟩] := by
      unfold tokenize
      rw [str_sandwich_data a b c "/" "/" '/' '/' rfl rfl]
      exact @tokenizeChars_three_numerals '/' '/' ⟨.SLASHOPERATOR, "/"⟩
        ⟨.SLASHOPERATOR, "/"⟩ (by decide) (by decide) a b c
    have hparse2 : parse [⟨.INTEGER, str a⟩, ⟨.SLASHOPERATOR, "/"⟩,
        ⟨.INTEGER, str b⟩, ⟨.SLASHOPERATOR, "/"⟩, ⟨.INTEGER, str c⟩] =
        .ok (.div (.div (.lit a) (.lit b)) (.lit c)) := by
      rw [parse_int_div_int_div_int, stoi_str, stoi_str, stoi_str]
    refine ⟨⟨hparse1, ?_⟩, ⟨hparse2, ?_⟩⟩
    · simp [evaluate, htok1, hparse1, interpret]
    · simp [evaluate, htok2, hparse2]

/-- C4: for a division node the right operand is evaluated first: if it
evaluates to zero the whole node fails with the division-by-zero error (no
division is performed, whatever the left operand is), otherwise the node
divides with truncation-toward-zero semantics; and evaluate "5/0" fails
with that error. -/
theorem claim4 :
    evaluate "5/0" = .error .divisionByZero ∧
    (∀ l r : Expr, interpret r = .ok 0 →
      interpret (.div l r) = .error .divisionByZero) ∧
    (∀ (l r : Expr) (n d : Int), interpret r = .ok d → d ≠ 0 →
      interpret l = .ok n → interpret (.div l r) = .ok (Int.tdiv n d)) ∧
    (∀ n d : Int,
      Int.tdiv n d = n.sign * d.sign * ((n.natAbs / d.natAbs : Nat) : Int)) := by
  refine ⟨?_, ?_, ?_, tdiv_trunc⟩
  · simp [evaluate, tokenize, tokenizeChars, isspace, isdigit, parse,
      parseExpression, parseTerm, parseTermLoop, parseFactor,
      parseFactorLoop, parsePrimary, Token.isType, stoi, interpret]
  · intro l r hr
    rw [show interpret (.div l r) =
      (match interpret r with
       | .error e => .error e
       | .ok d =>
         if d = 0 then .error .divisionByZero
         else
           match interpret l with
           | .error e => .error e
           | .ok n => .ok (Int.tdiv n d)) from rfl, hr]
    simp
  · intro l r n d hr hd hl
    rw [show interpret (.div l r) =
      (match interpret r with
       | .error e => .error e
       | .ok d =>
         if d = 0 then .error .divisionByZero
         else
           match interpret l with
           | .error e => .error e
           | .ok n => .ok (Int.tdiv n d)) from rfl, hr, hl]
    simp [hd]

/-- C4, witness: the division branches at concrete inputs. -/
theorem claim4_witness :
    interpret (.div (.lit 1) (.lit 0)) = .error .divisionByZero ∧
    interpret (.div (.lit 7) (.lit 2)) = .ok (Int.tdiv 7 2) :=
  ⟨claim4.2.1 (.lit 1) (.lit 0) rfl,
   claim4.2.2.1 (.lit 7) (.lit 2) 7 2 rfl (by decide) rfl⟩

/-- C5: for every non-negative integer n, evaluating its decimal numeral
(written without leading zeros) returns n. -/
theorem claim5 : ∀ n : Nat, evaluate (str n) = .ok (n : Int) := by
  intro n
  have htok : tokenize (str n) = .ok [⟨.INTEGER, str n⟩] := by
    have h := tokenizeChars_str_append n [] (by intro d hd; injection hd)
    simp only [List.append_nil, tokenizeChars_nil] at h
    exact h
  have hparse : parse [⟨.INTEGER, str n⟩] = .ok (.lit n) := by
    rw [parse_single_int, stoi_str]
  simp [evaluate, htok, hparse, interpret]

/-- C6: tokenization fails with the lexical error naming the first
character that is neither whitespace, an ASCII digit, an operator symbol
nor a parenthesis, succeeds on every input made of those characters only,
and evaluate "3+@2" fails with the lexical error naming the '@'. -/
theorem claim6 :
    (∀ s : String, (∀ c ∈ s.data, legalChar c = true) →
      ∃ ts, tokenize s = .ok ts) ∧
    (∀ (s : String) (good : List Char) (c : Char) (rest : List Char),
      s.data = good ++ c :: rest → (∀ c' ∈ good, legalChar c' = true) →
      legalChar c = false → tokenize s = .error (.lexError c)) ∧
    evaluate "3+@2" = .error (.lexError '@') := by
  refine ⟨?_, ?_, ?_⟩
  · intro s hleg
    exact tokenizeChars_ok_of_legal s.data.length s.data (le_refl _) hleg
  · intro s good c rest hdata hgood hc
    unfold tokenize
    rw [hdata]
    exact tokenizeChars_error_at_first_illegal good.length good (le_refl _)
      hgood c hc rest
  · simp [evaluate, tokenize, tokenizeChars, isspace, isdigit]

/-- C6, witness: success on a legal input and the error on a concrete
input with one illegal character. -/
theorem claim6_witness :
    (∃ ts, tokenize "12" = .ok ts) ∧ tokenize "4@" = .error (.lexError '@') :=
  ⟨claim6.1 "12" (by decide),
   claim6.2.1 "4@" ['4'] '@' [] rfl (by decide) (by decide)⟩

/-- Stated from the claim's words (for refutation): two inputs differ only
in inter-token whitespace when both are whitespace-interleavings of the
same sequence of token texts (each piece of whitespace possibly empty). -/
def differOnlyInInterTokenWhitespace (s1 s2 : String) : Prop :=
  ∃ ws0a ws0b partsA partsB,
    wsOnly ws0a = true ∧ wsOnly ws0b = true ∧
    wfParts partsA = true ∧ wfParts partsB = true ∧
    partsA.map Prod.fst = partsB.map Prod.fst ∧
    s1.data = ws0a ++ render partsA ∧ s2.data = ws0b ++ render partsB

/-- C7, counterexample: "1 2" and "12" differ only in inter-token
whitespace (the space between the two INTEGER tokens), yet evaluate
returns 1 for the first and 12 for the second: removing the whitespace
between two adjacent integer tokens merges their digit runs. -/
theorem claim7_counterexample :
    differOnlyInInterTokenWhitespace "1 2" "12" ∧
    evaluate "1 2" = .ok 1 ∧ evaluate "12" = .ok 12 ∧
    evaluate "1 2" ≠ evaluate "12" := by
  have h1 : evaluate "1 2" = .ok 1 := by
    simp [evaluate, tokenize, tokenizeChars, isspace, isdigit, parse,
      parseExpression, parseTerm, parseTermLoop, parseFactor,
      parseFactorLoop, parsePrimary, Token.isType, stoi, interpret]
  have h2 : evaluate "12" = .ok 12 := by
    simp [evaluate, tokenize, tokenizeChars, isspace, isdigit, parse,
      parseExpression, parseTerm, parseTermLoop, parseFactor,
      parseFactorLoop, parsePrimary, Token.isType, stoi, interpret]
  refine ⟨⟨[], [], [(⟨.INTEGER, "1"⟩, [' ']), (⟨.INTEGER, "2"⟩, [])],
    [(⟨.INTEGER, "1"⟩, []), (⟨.INTEGER, "2"⟩, [])],
    by decide, by decide, by decide, by decide, by decide, by decide,
    by decide⟩, h1, h2, ?_⟩
  rw [h1, h2]
  decide

/-- C7, amended: whitespace is skipped and never produces a token, so two
renderings of the same token sequence evaluate identically provided the
whitespace between adjacent INTEGER tokens is nonempty in both (otherwise
adjacent digit runs would merge into one token); in particular
evaluate "1 +  2" = evaluate "1+2". -/
theorem claim7_amended :
    (∀ (ws0a ws0b : List Char) (partsA partsB : List (Token × List Char)),
      wsOnly ws0a = true → wsOnly ws0b = true →
      wfParts partsA = true → wfParts partsB = true →
      sepOk partsA = true → sepOk partsB = true →
      partsA.map Prod.fst = partsB.map Prod.fst →
      evaluate (String.mk (ws0a ++ render partsA)) =
        evaluate (String.mk (ws0b ++ render partsB))) ∧
    evaluate "1 +  2" = evaluate "1+2" := by
  constructor
  · intro ws0a ws0b partsA partsB hwa hwb hfa hfb hsa hsb hmap
    have ha : tokenize (String.mk (ws0a ++ render partsA)) =
        .ok (partsA.map Prod.fst) := by
      unfold tokenize
      rw [data_mk,
        tokenizeChars_ws_append (by simpa [wsOnly, List.all_eq_true] using hwa),
        tokenizeChars_render partsA hfa hsa]
    have hb : tokenize (String.mk (ws0b ++ render partsB)) =
        .ok (partsB.map Prod.fst) := by
      unfold tokenize
      rw [data_mk,
        tokenizeChars_ws_append (by simpa [wsOnly, List.all_eq_true] using hwb),
        tokenizeChars_render partsB hfb hsb]
    unfold evaluate
    rw [ha, hb, hmap]
  · simp [evaluate, tokenize, tokenizeChars, isspace, isdigit, parse,
      parseExpression, parseTerm, parseTermLoop, parseFactor,
      parseFactorLoop, parsePrimary, Token.isType, stoi, interpret]

/-- C7, witness for the amended claim at concrete renderings. -/
theorem claim7_witness :
    evaluate (String.mk ([' '] ++ render [(⟨.INTEGER, "3"⟩, [' ', ' '])])) =
      evaluate (String.mk ([] ++ render [(⟨.INTEGER, "3"⟩, [])])) :=
  claim7_amended.1 [' '] [] [(⟨.INTEGER, "3"⟩, [' ', ' '])]
    [(⟨.INTEGER, "3"⟩, [])] (by decide) (by decide) (by decide) (by decide)
    (by decide) (by decide) (by decide)

/-- C8: a minus sign (or any token other than an integer or an opening
parenthesis) where a primary is required is rejected as an invalid
primary; in particular evaluate "-5" and evaluate "3*-2" both fail with
that error. -/
theorem claim8 :
    evaluate "-5" = .error .invalidPrimary ∧
    evaluate "3*-2" = .error .invalidPrimary ∧
    ∀ (t : Token) (rest : List Token),
      t.isType .INTEGER = false → t.isType .LPARENTHESIS = false →
      parsePrimary (t :: rest) = .error .invalidPrimary := by
  refine ⟨?_, ?_, fun t rest h1 h2 => parsePrimary_invalid h1 h2 rest⟩
  · simp [evaluate, tokenize, tokenizeChars, isspace, isdigit, parse,
      parseExpression, parseTerm, parseTermLoop, parseFactor,
      parseFactorLoop, parsePrimary, Token.isType, stoi, interpret]
  · simp [evaluate, tokenize, tokenizeChars, isspace, isdigit, parse,
      parseExpression, parseTerm, parseTermLoop, parseFactor,
      parseFactorLoop, parsePrimary, Token.isType, stoi, interpret]

/-- C8, witness: a minus token where a primary is required. -/
theorem claim8_witness :
    parsePrimary [⟨.MINUSOPERATOR, "-"⟩] = .error .invalidPrimary :=
  claim8.2.2 ⟨.MINUSOPERATOR, "-"⟩ [] (by decide) (by decide)

/-- C9: after a parenthesized sub-expression is parsed, the next token
must be a closing parenthesis; if the input has ended or any other token
follows, parsing fails with the expected-close-paren error; in particular
evaluate "(1+2" fails with that error. -/
theorem claim9 :
    evaluate "(1+2" = .error .expectedCloseParen ∧
    ∀ (lp : Token) (cs : List Token) (e : Expr) (rest : List Token),
      lp.isType .LPARENTHESIS = true →
      parseExpressionRest cs = .ok (e, rest) →
      (rest = [] ∨ ∃ t2 ts, rest = t2 :: ts ∧ t2.isType .RPARENTHESIS = false) →
      parsePrimary (lp :: cs) = .error .expectedCloseParen := by
  constructor
  · simp [evaluate, tokenize, tokenizeChars, isspace, isdigit, parse,
      parseExpression, parseTerm, parseTermLoop, parseFactor,
      parseFactorLoop, parsePrimary, Token.isType, stoi, interpret]
  · intro lp cs e rest hlp hpe hr
    unfold parseExpressionRest at hpe
    split at hpe
    · exact absurd hpe (by simp)
    · next e2 r2 heq =>
      simp only [Except.ok.injEq, Prod.mk.injEq] at hpe
      refine parsePrimary_unclosed hlp cs e2 r2 heq ?_
      rw [hpe.2]
      exact hr

/-- C9, witness: a group left unclosed at end of input. -/
theorem claim9_witness :
    parsePrimary [⟨.LPARENTHESIS, "("⟩, ⟨.INTEGER, "1"⟩] =
      .error .expectedCloseParen :=
  claim9.2 ⟨.LPARENTHESIS, "("⟩ [⟨.INTEGER, "1"⟩] (.lit 1) [] (by decide)
    (by simp [parseExpressionRest, parseExpression, parseTerm, parseTermLoop,
      parseFactor, parseFactorLoop, parsePrimary, Token.isType, stoi])
    (Or.inl rfl)

/-- C10: on an input that is empty or all whitespace, tokenization
succeeds with the empty token sequence and evaluation then fails with the
unexpected-end parse error. -/
theorem claim10 :
    ∀ s : String, (∀ c ∈ s.data, isspace c = true) →
      tokenize s = .ok [] ∧ evaluate s = .error .unexpectedEnd := by
  intro s hs
  have htok : tokenize s = .ok [] := by
    unfold tokenize
    have h := tokenizeChars_ws_append hs ([] : List Char)
    rw [List.append_nil] at h
    rw [h, tokenizeChars_nil]
  exact ⟨htok, by simp [evaluate, htok, parse_nil]⟩

/-- C10, witness: the empty and an all-whitespace input. -/
theorem claim10_witness :
    (tokenize "" = .ok [] ∧ evaluate "" = .error .unexpectedEnd) ∧
    (tokenize "  " = .ok [] ∧ evaluate "  " = .error .unexpectedEnd) :=
  ⟨claim10 "" (by decide), claim10 "  " (by decide)⟩
